import Mathlib

/-!
Shallow embedding of the project-dashboard application core (`app.py`,
`models.py`): the authorization evaluator, the sprint generator, the
calendar aggregator and the task/subtask mutation handlers.

Dates are embedded as proleptic-Gregorian day ordinals, plain `Int`s:
Python's `date` ordering, `timedelta(days = n)` addition and `min`/`max`
become the corresponding integer operations, and `daysFromCivil` gives the
ordinal of a concrete civil date.
-/

namespace CyberPM

/-- `ProjectMemberPermission` row: per-(project, member) permission flags. -/
structure ProjectMemberPermission where
  project_id : Nat
  user_id : Nat
  can_edit_tasks : Bool
  can_create_tasks : Bool
  can_assign_tasks : Bool
deriving DecidableEq, Repr

/-- `Project` row; `members` holds the ids of the many-to-many member users. -/
structure Project where
  id : Nat
  user_id : Nat
  members : List Nat
  start_date : Option Int
  end_date : Option Int
  sprint_length_days : Option Int
deriving DecidableEq, Repr

/-- `Sprint` row, as produced by `build_sprints`. -/
structure Sprint where
  name : String
  start_date : Int
  end_date : Int
  project_id : Nat
deriving DecidableEq, Repr

/-- `Task` row; `project` is the resolved `task.project` relationship. -/
structure Task where
  title : String
  description : String
  status : String
  priority : String
  locked : Bool
  completed : Bool
  start_date : Option Int
  due_date : Option Int
  end_date : Option Int
  assigned_user_id : Option Nat
  sprint_id : Option Nat
  project : Project
deriving DecidableEq, Repr

/-- `Subtask` row; `task` is the resolved `subtask.task` relationship. -/
structure Subtask where
  title : String
  completed : Bool
  task : Task
deriving DecidableEq, Repr

/-- `is_project_member(project, user)` (app.py line 27). -/
def is_project_member (project : Project) (user : Nat) : Bool :=
  project.user_id == user || project.members.contains user

/-- `get_member_permissions(project_id, user_id)` (app.py line 30): the
`filter_by(project_id, user_id).first()` query over the permission table. -/
def get_member_permissions (perms : List ProjectMemberPermission)
    (project_id user_id : Nat) : Option ProjectMemberPermission :=
  (perms.filter fun r => r.project_id == project_id && r.user_id == user_id).head?

/-- `user_can_edit_tasks(project, user)` (app.py lines 33-39). -/
def user_can_edit_tasks (perms : List ProjectMemberPermission)
    (project : Project) (user : Nat) : Bool :=
  if project.user_id == user then true
  else if !(project.members.contains user) then false
  else
    match get_member_permissions perms project.id user with
    | some r => r.can_edit_tasks
    | none => false

/-- `user_can_modify_task(task, user)` (app.py lines 41-46). -/
def user_can_modify_task (perms : List ProjectMemberPermission)
    (task : Task) (user : Nat) : Bool :=
  if task.project.user_id == user then true
  else if task.locked then false
  else user_can_edit_tasks perms task.project user

/-- The `while current_start <= project.end_date` loop of `build_sprints`
(app.py lines 57-68), written with explicit fuel; `build_sprints` supplies
fuel `end - start + 1`, enough because every iteration advances
`current_start` by at least one day once `sprint_length >= 1`. -/
def sprintLoop (end_date sprint_length : Int) (project_id : Nat) :
    Nat → Int → Nat → List Sprint
  | 0, _, _ => []
  | fuel + 1, current_start, index =>
    if current_start ≤ end_date then
      { name := "Sprint " ++ toString index
        start_date := current_start
        end_date := min (current_start + (sprint_length - 1)) end_date
        project_id := project_id } ::
        sprintLoop end_date sprint_length project_id fuel
          (min (current_start + (sprint_length - 1)) end_date + 1) (index + 1)
    else []

/-- `build_sprints(project)` (app.py lines 48-69).  Python truthiness makes
`not project.sprint_length_days` true both for `None` and for `0`, hence the
extra `== 0` case before the `< 1` guard. -/
def build_sprints (project : Project) : List Sprint :=
  match project.start_date, project.end_date, project.sprint_length_days with
  | some start_date, some end_date, some sprint_length =>
    if sprint_length == 0 then []
    else if sprint_length < 1 then []
    else
      sprintLoop end_date sprint_length project.id
        ((end_date - start_date).toNat + 1) start_date 1
  | _, _, _ => []

/-- The stored rows touched by sprint regeneration. -/
structure DBState where
  sprints : List Sprint
  tasks : List Task
deriving DecidableEq, Repr

/-- `generate_sprints` handler (app.py lines 209-229): owner-gated; with the
three project fields set (and `sprint_length_days` truthy) it detaches the
project's tasks, deletes its sprints and inserts the freshly built ones.
The `if not sprints` early return after the first commit leaves exactly the
same stored rows, since `db.session.add_all([])` would add nothing. -/
def generate_sprints (st : DBState) (project : Project) (user : Nat) : DBState :=
  if !(project.user_id == user) then st
  else
    match project.start_date, project.end_date, project.sprint_length_days with
    | some _, some _, some len =>
      if len == 0 then st
      else
        { sprints :=
            (st.sprints.filter fun s => s.project_id != project.id) ++
              build_sprints project
          tasks := st.tasks.map fun t =>
            if t.project.id == project.id then { t with sprint_id := none } else t }
    | _, _, _ => st

/-- True in the proleptic Gregorian calendar (what Python's `calendar`
module computes). -/
def isLeap (year : Int) : Bool :=
  (year % 4 == 0 && year % 100 != 0) || year % 400 == 0

/-- Number of days in a month (`calendar.monthrange(year, month)[1]`). -/
def monthLength (year month : Int) : Int :=
  if month == 2 then (if isLeap year then 29 else 28)
  else if month == 4 || month == 6 || month == 9 || month == 11 then 30
  else 31

/-- Day ordinal of a proleptic-Gregorian civil date: the `Int` the
embedding assigns to Python's `date(year, month, day)`. -/
def daysFromCivil (year month day : Int) : Int :=
  let y := if month ≤ 2 then year - 1 else year
  let era := (if 0 ≤ y then y else y - 399) / 400
  let yoe := y - era * 400
  let doy := (153 * (month + (if 2 < month then -3 else 9)) + 2) / 5 + day - 1
  let doe := yoe * 365 + yoe / 4 - yoe / 100 + doy
  era * 146097 + doe - 719468

/-- The consecutive days of `[lo, hi]` (empty when `hi < lo`). -/
def rangeDays (lo hi : Int) : List Int :=
  (List.range (hi + 1 - lo).toNat).map fun (i : Nat) => lo + (i : Int)

/-- One entry of the calendar `events` mapping, tagged with the day it is
filed under. -/
structure CalEvent where
  day : Int
  label : String
  event_type : String
deriving DecidableEq, Repr

/-- `add_event_range` (app.py lines 278-286): clip `[start_date, end_date]`
to `[month_start, month_end]` and add one entry per remaining day. -/
def add_event_range (month_start month_end : Int)
    (start_date end_date : Option Int) (label event_type : String) :
    List CalEvent :=
  match start_date, end_date with
  | some s, some e =>
    (rangeDays (max s month_start) (min e month_end)).map
      fun d => { day := d, label := label, event_type := event_type }
  | _, _ => []

/-- The `events` aggregation of the `project_calendar` handler
(app.py lines 277-297): sprints first, then each task with its effective
display range (the `or`-chains over the optional dates). -/
def project_calendar_events (sprints : List Sprint) (tasks : List Task)
    (year month : Int) : List CalEvent :=
  let month_start := daysFromCivil year month 1
  let month_end := daysFromCivil year month (monthLength year month)
  (sprints.flatMap fun sp =>
    add_event_range month_start month_end (some sp.start_date)
      (some sp.end_date) ("Sprint: " ++ sp.name) "sprint") ++
  tasks.flatMap fun t =>
    let s := t.start_date.orElse fun _ => t.due_date
    let e := (t.end_date.orElse fun _ => t.due_date).orElse fun _ => t.start_date
    add_event_range month_start month_end s e ("Task: " ++ t.title) "task"

/-- `Task.get_completion_percentage` (models.py lines 70-76), over the
task's subtask rows; Python's `int(...)` truncates the quotient. -/
def get_completion_percentage (subtasks : List Subtask) : Nat :=
  let total := subtasks.length
  if total == 0 then 0
  else
    let completed := (subtasks.filter fun s => s.completed).length
    completed * 100 / total

/-- The `TaskForm` fields consumed by the task handlers. -/
structure TaskForm where
  title : String
  description : String
  status : String
  priority : String
  start_date : Option Int
  due_date : Option Int
  end_date : Option Int
  assigned_to : Nat
  sprint_id : Nat
deriving DecidableEq, Repr

/-- `create_task` handler (app.py lines 329-368): member- and
permission-gated; the `Task(...)` constructor passes no `completed` (or
`locked`) argument, so both take their column defaults of `False`
(models.py line 61, and the `ALTER TABLE ... DEFAULT 0` migration). -/
def create_task (perms : List ProjectMemberPermission) (project : Project)
    (user : Nat) (form : TaskForm) : Option Task :=
  if !(is_project_member project user) then none
  else if !(user_can_edit_tasks perms project user) then none
  else some
    { title := form.title
      description := form.description
      status := form.status
      priority := form.priority
      locked := false
      completed := false
      start_date := form.start_date
      due_date := form.due_date
      end_date := form.end_date
      assigned_user_id := if form.assigned_to != 0 then some form.assigned_to else none
      sprint_id := if form.sprint_id != 0 then some form.sprint_id else none
      project := project }

/-- `edit_task` handler (app.py lines 395-431), POST branch: gated on
membership and `user_can_modify_task`; sets `completed = (status == done)`. -/
def edit_task (perms : List ProjectMemberPermission) (task : Task)
    (user : Nat) (form : TaskForm) : Task :=
  if !(is_project_member task.project user) then task
  else if !(user_can_modify_task perms task user) then task
  else
    { task with
      title := form.title
      description := form.description
      status := form.status
      priority := form.priority
      start_date := form.start_date
      due_date := form.due_date
      end_date := form.end_date
      assigned_user_id := if form.assigned_to != 0 then some form.assigned_to else none
      sprint_id := if form.sprint_id != 0 then some form.sprint_id else none
      completed := form.status == "done" }

/-- `change_task_status` handler (app.py lines 453-464): permission gate,
status whitelist, then `completed = (new_status == done)`. -/
def change_task_status (perms : List ProjectMemberPermission) (task : Task)
    (user : Nat) (new_status : String) : Task :=
  if !(user_can_modify_task perms task user) then task
  else if !(new_status == "todo" || new_status == "in_progress" || new_status == "done")
    then task
  else { task with status := new_status, completed := new_status == "done" }

/-- `toggle_task_lock` handler (app.py lines 441-451): owner-gated flip of
`task.locked`. -/
def toggle_task_lock (task : Task) (user : Nat) : Task :=
  if !(task.project.user_id == user) then task
  else { task with locked := !task.locked }

/-- `toggle_subtask` handler (app.py lines 496-508): gated on
`user_can_modify_task` of the parent task, then flips `completed`. -/
def toggle_subtask (perms : List ProjectMemberPermission) (subtask : Subtask)
    (user : Nat) : Subtask :=
  if !(user_can_modify_task perms subtask.task user) then subtask
  else { subtask with completed := !subtask.completed }

/-- Concrete project used to instantiate hypothesis-bearing theorems:
owner 1, member 2, date range embedded as day ordinals 1..10, sprint
length 7 (the worked example of the specification). -/
def sampleProject : Project :=
  { id := 5, user_id := 1, members := [2],
    start_date := some 1, end_date := some 10, sprint_length_days := some 7 }

def samplePermission : ProjectMemberPermission :=
  { project_id := 5, user_id := 2, can_edit_tasks := true,
    can_create_tasks := true, can_assign_tasks := true }

def sampleTask : Task :=
  { title := "t", description := "", status := "todo", priority := "medium",
    locked := false, completed := false, start_date := none, due_date := none,
    end_date := none, assigned_user_id := none, sprint_id := some 3,
    project := sampleProject }

instance : Inhabited Task := ⟨sampleTask⟩

def sampleForm (status : String) : TaskForm :=
  { title := "t", description := "", status := status, priority := "high",
    start_date := none, due_date := none, end_date := none,
    assigned_to := 0, sprint_id := 0 }

/-- The April-2025 task of the calendar example: `start_date = 2025-03-30`,
`end_date = 2025-04-02`, no due date. -/
def aprilTask : Task :=
  { sampleTask with
    start_date := some (daysFromCivil 2025 3 30),
    due_date := none,
    end_date := some (daysFromCivil 2025 4 2) }

/-- A concrete stored state: one sprint of the sample project, one sprint
of another project (id 9), and the sample task (attached to sprint 3). -/
def sampleState : DBState :=
  { sprints := [⟨"old", 0, 5, 5⟩, ⟨"other", 0, 5, 9⟩],
    tasks := [sampleTask] }

/-- A record returned by the permission query is a stored record whose key
columns match the queried pair. -/
theorem get_member_permissions_some {perms : List ProjectMemberPermission}
    {pid uid : Nat} {r : ProjectMemberPermission}
    (h : get_member_permissions perms pid uid = some r) :
    r ∈ perms ∧ r.project_id = pid ∧ r.user_id = uid := by
  unfold get_member_permissions at h
  cases hf : perms.filter fun q => q.project_id == pid && q.user_id == uid with
  | nil => rw [hf] at h; simp at h
  | cons a t =>
    rw [hf] at h
    simp only [List.head?_cons, Option.some.injEq] at h
    subst h
    have ha : a ∈ perms.filter fun q => q.project_id == pid && q.user_id == uid := by
      rw [hf]; exact List.mem_cons_self _ _
    have hma := List.mem_filter.mp ha
    have hpred := hma.2
    simp only [Bool.and_eq_true, beq_iff_eq] at hpred
    exact ⟨hma.1, hpred.1, hpred.2⟩

/-- When the permission query finds nothing, no stored record matches the
queried pair. -/
theorem get_member_permissions_none {perms : List ProjectMemberPermission}
    {pid uid : Nat} (h : get_member_permissions perms pid uid = none) :
    ∀ r ∈ perms, ¬(r.project_id = pid ∧ r.user_id = uid) := by
  unfold get_member_permissions at h
  rw [List.head?_eq_none_iff, List.filter_eq_nil_iff] at h
  intro r hr ⟨h1, h2⟩
  exact h r hr (by simp [h1, h2])

/-- C1: `user_can_edit_tasks` is true for the project owner; false for a
user who is neither owner nor member; and for a non-owner member it is true
exactly when a permission record for the (project, user) pair exists with
its `can_edit_tasks` flag set (the permission table holding at most one
record per pair, its primary key). -/
theorem c1_user_can_edit_tasks
    (perms : List ProjectMemberPermission) (project : Project) (user : Nat)
    (huniq : ∀ r₁ ∈ perms, ∀ r₂ ∈ perms,
      r₁.project_id = r₂.project_id → r₁.user_id = r₂.user_id → r₁ = r₂) :
    (project.user_id = user → user_can_edit_tasks perms project user = true) ∧
    (project.user_id ≠ user → user ∉ project.members →
      user_can_edit_tasks perms project user = false) ∧
    (project.user_id ≠ user → user ∈ project.members →
      (user_can_edit_tasks perms project user = true ↔
        ∃ r ∈ perms, r.project_id = project.id ∧ r.user_id = user ∧
          r.can_edit_tasks = true)) := by
  refine ⟨fun h => ?_, fun h hm => ?_, fun h hm => ?_⟩
  · unfold user_can_edit_tasks; simp [h]
  · unfold user_can_edit_tasks; simp_all
  · unfold user_can_edit_tasks
    have h1 : (project.user_id == user) = false := by simp [h]
    have h2 : project.members.contains user = true := by simp [hm]
    rw [h1]
    simp only [Bool.false_eq_true, if_false, h2, Bool.not_true, if_false]
    cases hg : get_member_permissions perms project.id user with
    | none =>
      simp only [Bool.false_eq_true, false_iff]
      rintro ⟨r, hr, hp, hu, _⟩
      exact get_member_permissions_none hg r hr ⟨hp, hu⟩
    | some r =>
      obtain ⟨hrm, hrp, hru⟩ := get_member_permissions_some hg
      constructor
      · intro hflag; exact ⟨r, hrm, hrp, hru, hflag⟩
      · rintro ⟨r', hr', hp', hu', hflag'⟩
        have : r = r' := huniq r hrm r' hr' (by rw [hrp, hp']) (by rw [hru, hu'])
        rw [this]; exact hflag'

/-- C1 witness: owner 1, non-member 3, and permitted member 2 of the sample
project, over the one-record permission table. -/
theorem c1_user_can_edit_tasks_witness :
    sampleProject.user_id = 1 ∧
    user_can_edit_tasks [samplePermission] sampleProject 1 = true ∧
    sampleProject.user_id ≠ 3 ∧ 3 ∉ sampleProject.members ∧
    user_can_edit_tasks [samplePermission] sampleProject 3 = false ∧
    sampleProject.user_id ≠ 2 ∧ 2 ∈ sampleProject.members ∧
    (user_can_edit_tasks [samplePermission] sampleProject 2 = true ↔
      ∃ r ∈ [samplePermission], r.project_id = sampleProject.id ∧
        r.user_id = 2 ∧ r.can_edit_tasks = true) := by
  have huniq : ∀ r₁ ∈ [samplePermission], ∀ r₂ ∈ [samplePermission],
      r₁.project_id = r₂.project_id → r₁.user_id = r₂.user_id → r₁ = r₂ := by
    intro r₁ h₁ r₂ h₂ _ _
    simp only [List.mem_singleton] at h₁ h₂; rw [h₁, h₂]
  refine ⟨rfl,
    (c1_user_can_edit_tasks [samplePermission] sampleProject 1 huniq).1 rfl,
    by decide, by decide,
    (c1_user_can_edit_tasks [samplePermission] sampleProject 3 huniq).2.1
      (by decide) (by decide),
    by decide, by decide,
    (c1_user_can_edit_tasks [samplePermission] sampleProject 2 huniq).2.2
      (by decide) (by decide)⟩

/-- C2: `user_can_modify_task` is true for the project owner (the owner
bypasses the lock); false for every non-owner on a locked task, whatever
the permission records say; and for a non-owner on an unlocked task it is
exactly `user_can_edit_tasks` on the task's project. -/
theorem c2_user_can_modify_task
    (perms : List ProjectMemberPermission) (task : Task) (user : Nat) :
    (task.project.user_id = user → user_can_modify_task perms task user = true) ∧
    (task.project.user_id ≠ user → task.locked = true →
      user_can_modify_task perms task user = false) ∧
    (task.project.user_id ≠ user → task.locked = false →
      user_can_modify_task perms task user =
        user_can_edit_tasks perms task.project user) := by
  unfold user_can_modify_task
  refine ⟨fun h => ?_, fun h hl => ?_, fun h hl => ?_⟩ <;> simp_all

/-- C2 witness: the locked sample task cannot be modified by non-owner 2,
even though 2 holds a full permission record. -/
theorem c2_user_can_modify_task_witness :
    { sampleTask with locked := true }.project.user_id ≠ 2 ∧
    { sampleTask with locked := true }.locked = true ∧
    user_can_modify_task [samplePermission] { sampleTask with locked := true } 2 = false :=
  ⟨by decide, rfl,
    (c2_user_can_modify_task [samplePermission] { sampleTask with locked := true } 2).2.1
      (by decide) rfl⟩

/-- C7 (amended): `get_completion_percentage` returns the integer
truncation (floor) of `100 × completed_subtasks / total_subtasks`, and `0`
when the task has no subtasks — not the rounded value. -/
theorem c7_completion_percentage_truncates (subtasks : List Subtask) :
    get_completion_percentage subtasks =
      if subtasks.length = 0 then 0
      else ⌊(100 * (((subtasks.filter fun s => s.completed).length : ℚ))) /
        (subtasks.length : ℚ)⌋₊ := by
  by_cases h : subtasks.length = 0
  · simp [get_completion_percentage, h]
  · have hb : (subtasks.length == 0) = false := by simp [h]
    simp only [get_completion_percentage, hb, Bool.false_eq_true, if_false, h]
    rw [show (100 * (((subtasks.filter fun s => s.completed).length : ℚ))) =
        (((100 * (subtasks.filter fun s => s.completed).length : ℕ) : ℚ)) by push_cast; ring]
    rw [Nat.floor_div_eq_div]
    rw [Nat.mul_comm]

/-- C7 counterexample: with three subtasks of which two are completed the
code returns `66` while the claimed `round(100 × 2 / 3)` is `67`. -/
theorem c7_round_counterexample :
    (get_completion_percentage
      [⟨"a", true, sampleTask⟩, ⟨"b", true, sampleTask⟩, ⟨"c", false, sampleTask⟩] : ℤ) ≠
      round ((100 * (2 : ℚ)) / 3) := by
  have h1 : get_completion_percentage
      [⟨"a", true, sampleTask⟩, ⟨"b", true, sampleTask⟩, ⟨"c", false, sampleTask⟩] = 66 := by
    rfl
  have h2 : round ((100 * (2 : ℚ)) / 3) = 67 := by norm_num [round_eq]
  rw [h1, h2]
  decide

/-- C4: `build_sprints` returns the empty sequence whenever any of the
three inputs is absent, or the sprint length is below one. -/
theorem c4_build_sprints_rejects (project : Project)
    (h : project.start_date = none ∨ project.end_date = none ∨
      project.sprint_length_days = none ∨
      ∃ len, project.sprint_length_days = some len ∧ len < 1) :
    build_sprints project = [] := by
  unfold build_sprints
  rcases h with h | h | h | ⟨len, hl, hlt⟩
  · rw [h]
  · rw [h]; cases project.start_date <;> rfl
  · rw [h]; cases project.start_date <;> cases project.end_date <;> rfl
  · rw [hl]
    cases project.start_date <;> cases project.end_date <;> try rfl
    have : (len == 0) = true ∨ ((len == 0) = false ∧ len < 1) := by
      by_cases h0 : len = 0
      · exact Or.inl (by simp [h0])
      · exact Or.inr ⟨by simp [h0], hlt⟩
    rcases this with h0 | ⟨h0, h1⟩
    · simp [h0]
    · simp [h0, h1]

/-- C4 witness: a project with `sprint_length_days = 0` (all other fields
present) gets no sprints. -/
theorem c4_build_sprints_rejects_witness :
    (({ sampleProject with sprint_length_days := some 0 } : Project).start_date = none ∨
      ({ sampleProject with sprint_length_days := some 0 } : Project).end_date = none ∨
      ({ sampleProject with sprint_length_days := some 0 } : Project).sprint_length_days = none ∨
      (∃ len, ({ sampleProject with sprint_length_days := some 0 } : Project).sprint_length_days
        = some len ∧ len < 1)) ∧
    build_sprints { sampleProject with sprint_length_days := some 0 } = [] :=
  ⟨Or.inr (Or.inr (Or.inr ⟨0, rfl, by decide⟩)),
    c4_build_sprints_rejects _ (Or.inr (Or.inr (Or.inr ⟨0, rfl, by decide⟩)))⟩

/-- C10: with both dates present but `start_date` strictly after
`end_date`, and any sprint length of at least one, `build_sprints` returns
the empty sequence: the generation loop never runs. -/
theorem c10_build_sprints_reversed_range (project : Project)
    (sd ed len : Int)
    (hs : project.start_date = some sd) (he : project.end_date = some ed)
    (hl : project.sprint_length_days = some len)
    (hlen : 1 ≤ len) (hlt : ed < sd) :
    build_sprints project = [] := by
  have h0 : (len == 0) = false := by simp; omega
  have h1 : ¬(len < 1) := by omega
  have hfuel : (ed - sd).toNat = 0 := by omega
  simp only [build_sprints, hs, he, hl, h0, Bool.false_eq_true, if_false, h1, hfuel]
  rw [sprintLoop]
  rw [if_neg (show ¬(sd ≤ ed) by omega)]

/-- C10 witness: start ordinal 10, end ordinal 1, sprint length 7. -/
theorem c10_build_sprints_reversed_range_witness :
    ({ sampleProject with start_date := some 10, end_date := some 1 } : Project).start_date
        = some 10 ∧
      ({ sampleProject with start_date := some 10, end_date := some 1 } : Project).end_date
        = some 1 ∧
      ({ sampleProject with start_date := some 10, end_date := some 1 } : Project).sprint_length_days
        = some 7 ∧
      (1 : Int) ≤ 7 ∧ (1 : Int) < 10 ∧
      build_sprints { sampleProject with start_date := some 10, end_date := some 1 } = [] :=
  ⟨rfl, rfl, rfl, by decide, by decide,
    c10_build_sprints_reversed_range _ 10 1 7 rfl rfl rfl (by decide) (by decide)⟩

/-- C9: the owner's lock toggle applied twice restores `task.locked`, and
the subtask toggle applied twice by a user who may modify the parent task
restores `subtask.completed`. -/
theorem c9_toggles_are_involutions :
    (∀ task : Task,
      (toggle_task_lock (toggle_task_lock task task.project.user_id)
          task.project.user_id).locked = task.locked) ∧
    (∀ (perms : List ProjectMemberPermission) (subtask : Subtask) (user : Nat),
      user_can_modify_task perms subtask.task user = true →
      (toggle_subtask perms (toggle_subtask perms subtask user) user).completed =
        subtask.completed) := by
  constructor
  · intro task
    simp [toggle_task_lock]
  · intro perms subtask user h
    simp [toggle_subtask, h]

/-- C9 witness: the owner (user 1) double-toggles the lock of the sample
task and double-toggles a subtask of it. -/
theorem c9_toggles_are_involutions_witness :
    (toggle_task_lock (toggle_task_lock sampleTask sampleTask.project.user_id)
        sampleTask.project.user_id).locked = sampleTask.locked ∧
    user_can_modify_task [] (⟨"s", false, sampleTask⟩ : Subtask).task 1 = true ∧
    (toggle_subtask [] (toggle_subtask [] ⟨"s", false, sampleTask⟩ 1) 1).completed =
      (⟨"s", false, sampleTask⟩ : Subtask).completed :=
  ⟨c9_toggles_are_involutions.1 sampleTask, by decide,
    c9_toggles_are_involutions.2 [] ⟨"s", false, sampleTask⟩ 1 (by decide)⟩

/-- C6 (amended): the status route and the task edit keep `completed` equal
to `status == done`; but task creation leaves `completed` at its `False`
column default whatever status the form carries, so after creation the
equivalence holds only when the created status is not `done`. -/
theorem c6_completed_consistency :
    (∀ (perms : List ProjectMemberPermission) (task : Task) (user : Nat) (s : String),
      user_can_modify_task perms task user = true →
      (s = "todo" ∨ s = "in_progress" ∨ s = "done") →
      (change_task_status perms task user s).completed =
        ((change_task_status perms task user s).status == "done")) ∧
    (∀ (perms : List ProjectMemberPermission) (task : Task) (user : Nat) (form : TaskForm),
      is_project_member task.project user = true →
      user_can_modify_task perms task user = true →
      (edit_task perms task user form).completed =
        ((edit_task perms task user form).status == "done")) ∧
    (∀ (perms : List ProjectMemberPermission) (project : Project) (user : Nat)
        (form : TaskForm) (task : Task),
      create_task perms project user form = some task → task.completed = false) := by
  refine ⟨fun perms task user s hgate hvalid => ?_,
    fun perms task user form hmem hgate => ?_,
    fun perms project user form task h => ?_⟩
  · have hv : (s == "todo" || s == "in_progress" || s == "done") = true := by
      rcases hvalid with h | h | h <;> simp [h]
    simp [change_task_status, hgate, hv]
  · simp [edit_task, hmem, hgate]
  · unfold create_task at h
    by_cases h1 : is_project_member project user = true
    · by_cases h2 : user_can_edit_tasks perms project user = true
      · simp only [h1, h2, Bool.not_true, Bool.false_eq_true, if_false,
          Option.some.injEq] at h
        rw [← h]
      · rw [Bool.not_eq_true] at h2
        simp [h1, h2] at h
    · rw [Bool.not_eq_true] at h1
      simp [h1] at h

/-- C6 witness: owner 1 moves the sample task to `done` through the status
route, edits it to `done`, and creates a `done` task — the first two end
consistent, the created task has `completed = false`. -/
theorem c6_completed_consistency_witness :
    user_can_modify_task [] sampleTask 1 = true ∧
    (change_task_status [] sampleTask 1 "done").completed =
      ((change_task_status [] sampleTask 1 "done").status == "done") ∧
    is_project_member sampleTask.project 1 = true ∧
    (edit_task [] sampleTask 1 (sampleForm "done")).completed =
      ((edit_task [] sampleTask 1 (sampleForm "done")).status == "done") ∧
    create_task [] sampleProject 1 (sampleForm "done") =
      some (create_task [] sampleProject 1 (sampleForm "done")).get! ∧
    (create_task [] sampleProject 1 (sampleForm "done")).get!.completed = false :=
  ⟨by decide,
    c6_completed_consistency.1 [] sampleTask 1 "done" (by decide)
      (Or.inr (Or.inr rfl)),
    by decide,
    c6_completed_consistency.2.1 [] sampleTask 1 (sampleForm "done")
      (by decide) (by decide),
    rfl,
    c6_completed_consistency.2.2 [] sampleProject 1 (sampleForm "done") _ rfl⟩

/-- C6 counterexample: the owner creates a task whose form status is
`done`; the stored task has `status = done` but `completed = false`, so
creation does not keep `completed` consistent with the status. -/
theorem c6_create_done_counterexample :
    ∃ task, create_task [] sampleProject 1 (sampleForm "done") = some task ∧
      task.status = "done" ∧ task.completed = false :=
  ⟨_, rfl, rfl, rfl⟩

/-- Once `current_start` has passed `end_date` the loop emits nothing. -/
theorem sprintLoop_eq_nil_of_lt {e len : Int} {pid : Nat} {fuel : Nat}
    {cur : Int} {idx : Nat} (h : ¬(cur ≤ e)) :
    sprintLoop e len pid fuel cur idx = [] := by
  cases fuel with
  | zero => rfl
  | succ n => rw [sprintLoop, if_neg h]

/-- With a day still to cover and fuel left, the loop emits a sprint. -/
theorem sprintLoop_ne_nil {e len : Int} {pid : Nat} {fuel : Nat} {cur : Int}
    {idx : Nat} (hc : cur ≤ e) (hf : 0 < fuel) :
    sprintLoop e len pid fuel cur idx ≠ [] := by
  cases fuel with
  | zero => omega
  | succ n => rw [sprintLoop, if_pos hc]; simp

/-- The first sprint the loop emits starts at `current_start`, and the loop
only emits when `current_start ≤ end_date`. -/
theorem sprintLoop_head? {e len : Int} {pid : Nat} {fuel : Nat} {cur : Int}
    {idx : Nat} {s : Sprint}
    (h : (sprintLoop e len pid fuel cur idx).head? = some s) :
    s.start_date = cur ∧ cur ≤ e := by
  cases fuel with
  | zero => simp [sprintLoop] at h
  | succ n =>
    rw [sprintLoop] at h
    by_cases hc : cur ≤ e
    · rw [if_pos hc] at h
      simp only [List.head?_cons, Option.some.injEq] at h
      subst h
      exact ⟨rfl, hc⟩
    · rw [if_neg hc] at h; simp at h

/-- Every sprint the loop emits starts no earlier than `current_start`. -/
theorem sprintLoop_start_le {e len : Int} {pid : Nat} (hlen : 1 ≤ len) :
    ∀ (fuel : Nat) (cur : Int) (idx : Nat),
      ∀ s ∈ sprintLoop e len pid fuel cur idx, cur ≤ s.start_date := by
  intro fuel
  induction fuel with
  | zero => intro cur idx s hs; simp [sprintLoop] at hs
  | succ n ih =>
    intro cur idx s hs
    rw [sprintLoop] at hs
    by_cases hc : cur ≤ e
    · rw [if_pos hc] at hs
      rcases List.mem_cons.mp hs with h | h
      · subst h; exact le_refl _
      · have h2 := ih _ _ _ h
        have hmin : cur ≤ min (cur + (len - 1)) e := le_min (by omega) hc
        omega
    · rw [if_neg hc] at hs; simp at hs

/-- Every emitted sprint is a well-formed inclusive range inside the
project range, spanning at most `sprint_length` days. -/
theorem sprintLoop_mem_bounds {e len : Int} {pid : Nat} (hlen : 1 ≤ len) :
    ∀ (fuel : Nat) (cur : Int) (idx : Nat),
      ∀ s ∈ sprintLoop e len pid fuel cur idx,
        s.start_date ≤ s.end_date ∧ s.end_date ≤ e ∧
          s.end_date + 1 - s.start_date ≤ len := by
  intro fuel
  induction fuel with
  | zero => intro cur idx s hs; simp [sprintLoop] at hs
  | succ n ih =>
    intro cur idx s hs
    rw [sprintLoop] at hs
    by_cases hc : cur ≤ e
    · rw [if_pos hc] at hs
      rcases List.mem_cons.mp hs with h | h
      · subst h
        refine ⟨?_, ?_, ?_⟩
        · show cur ≤ min (cur + (len - 1)) e
          exact le_min (by omega) hc
        · show min (cur + (len - 1)) e ≤ e
          exact min_le_right _ _
        · have := min_le_left (cur + (len - 1)) e
          show min (cur + (len - 1)) e + 1 - cur ≤ len
          omega
      · exact ih _ _ _ h
    · rw [if_neg hc] at hs; simp at hs

/-- Every emitted sprint carries the project id the loop was given. -/
theorem sprintLoop_mem_project_id {e len : Int} {pid : Nat} :
    ∀ (fuel : Nat) (cur : Int) (idx : Nat),
      ∀ s ∈ sprintLoop e len pid fuel cur idx, s.project_id = pid := by
  intro fuel
  induction fuel with
  | zero => intro cur idx s hs; simp [sprintLoop] at hs
  | succ n ih =>
    intro cur idx s hs
    rw [sprintLoop] at hs
    by_cases hc : cur ≤ e
    · rw [if_pos hc] at hs
      rcases List.mem_cons.mp hs with h | h
      · subst h; rfl
      · exact ih _ _ _ h
    · rw [if_neg hc] at hs; simp at hs

/-- Emitted sprints end strictly before any later sprint starts. -/
theorem sprintLoop_pairwise_disjoint {e len : Int} {pid : Nat} (hlen : 1 ≤ len) :
    ∀ (fuel : Nat) (cur : Int) (idx : Nat),
      List.Pairwise (fun a b => a.end_date < b.start_date)
        (sprintLoop e len pid fuel cur idx) := by
  intro fuel
  induction fuel with
  | zero => intro cur idx; simp [sprintLoop]
  | succ n ih =>
    intro cur idx
    rw [sprintLoop]
    by_cases hc : cur ≤ e
    · rw [if_pos hc]
      refine List.pairwise_cons.mpr ⟨?_, ih _ _⟩
      intro b hb
      have hle := sprintLoop_start_le hlen n _ _ b hb
      show min (cur + (len - 1)) e < b.start_date
      omega
    · rw [if_neg hc]; simp

/-- Emitted sprints are strictly ordered by start date. -/
theorem sprintLoop_pairwise_ordered {e len : Int} {pid : Nat} (hlen : 1 ≤ len) :
    ∀ (fuel : Nat) (cur : Int) (idx : Nat),
      List.Pairwise (fun a b => a.start_date < b.start_date)
        (sprintLoop e len pid fuel cur idx) := by
  intro fuel
  induction fuel with
  | zero => intro cur idx; simp [sprintLoop]
  | succ n ih =>
    intro cur idx
    rw [sprintLoop]
    by_cases hc : cur ≤ e
    · rw [if_pos hc]
      refine List.pairwise_cons.mpr ⟨?_, ih _ _⟩
      intro b hb
      have hle := sprintLoop_start_le hlen n _ _ b hb
      have hmin : cur ≤ min (cur + (len - 1)) e := le_min (by omega) hc
      show cur < b.start_date
      omega
    · rw [if_neg hc]; simp

/-- Consecutive emitted sprints are contiguous: each starts one day after
the previous one ends. -/
theorem sprintLoop_chain_contiguous {e len : Int} {pid : Nat} :
    ∀ (fuel : Nat) (cur : Int) (idx : Nat),
      List.Chain' (fun a b => b.start_date = a.end_date + 1)
        (sprintLoop e len pid fuel cur idx) := by
  intro fuel
  induction fuel with
  | zero => intro cur idx; simp [sprintLoop]
  | succ n ih =>
    intro cur idx
    rw [sprintLoop]
    by_cases hc : cur ≤ e
    · rw [if_pos hc]
      refine List.chain'_cons'.mpr ⟨?_, ih _ _⟩
      intro y hy
      have h := sprintLoop_head? (Option.mem_def.mp hy)
      show y.start_date = min (cur + (len - 1)) e + 1
      exact h.1
    · rw [if_neg hc]; simp

/-- Every emitted sprint that is followed by another spans exactly
`sprint_length` days (only the last may be shorter). -/
theorem sprintLoop_chain_full {e len : Int} {pid : Nat} :
    ∀ (fuel : Nat) (cur : Int) (idx : Nat),
      List.Chain' (fun a _ => a.end_date + 1 - a.start_date = len)
        (sprintLoop e len pid fuel cur idx) := by
  intro fuel
  induction fuel with
  | zero => intro cur idx; simp [sprintLoop]
  | succ n ih =>
    intro cur idx
    rw [sprintLoop]
    by_cases hc : cur ≤ e
    · rw [if_pos hc]
      refine List.chain'_cons'.mpr ⟨?_, ih _ _⟩
      intro y hy
      have h := sprintLoop_head? (Option.mem_def.mp hy)
      have hm2 := min_le_right (cur + (len - 1)) e
      have hmeq : min (cur + (len - 1)) e = cur + (len - 1) := by
        rcases le_total (cur + (len - 1)) e with hle | hle
        · exact min_eq_left hle
        · have := min_eq_right hle
          have h2 := h.2
          omega
      show min (cur + (len - 1)) e + 1 - cur = len
      omega
    · rw [if_neg hc]; simp

/-- With enough fuel the loop runs until the last emitted sprint ends
exactly at `end_date`. -/
theorem sprintLoop_getLast {e len : Int} {pid : Nat} (hlen : 1 ≤ len) :
    ∀ (fuel : Nat) (cur : Int) (idx : Nat), cur ≤ e → e < cur + fuel →
      (sprintLoop e len pid fuel cur idx).getLast?.map Sprint.end_date = some e := by
  intro fuel
  induction fuel with
  | zero => intro cur idx hc hf; exfalso; omega
  | succ n ih =>
    intro cur idx hc hf
    rw [sprintLoop, if_pos hc]
    have hmin : cur ≤ min (cur + (len - 1)) e := le_min (by omega) hc
    by_cases hcc : min (cur + (len - 1)) e + 1 ≤ e
    · have hfuel2 : e < min (cur + (len - 1)) e + 1 + n := by omega
      have h2 := ih (min (cur + (len - 1)) e + 1) (idx + 1) hcc hfuel2
      have hne : sprintLoop e len pid n (min (cur + (len - 1)) e + 1) (idx + 1) ≠ [] := by
        apply sprintLoop_ne_nil hcc
        omega
      cases htl : sprintLoop e len pid n (min (cur + (len - 1)) e + 1) (idx + 1) with
      | nil => exact absurd htl hne
      | cons a t =>
        rw [htl] at h2
        rw [List.getLast?_cons_cons]
        exact h2
    · have htl0 : sprintLoop e len pid n (min (cur + (len - 1)) e + 1) (idx + 1) = [] :=
        sprintLoop_eq_nil_of_lt hcc
      rw [htl0, List.getLast?_singleton]
      have hm2 := min_le_right (cur + (len - 1)) e
      show some (min (cur + (len - 1)) e) = some e
      congr 1
      omega

/-- The emitted sprints are named `Sprint index`, `Sprint (index+1)`, ... -/
theorem sprintLoop_map_name {e len : Int} {pid : Nat} :
    ∀ (fuel : Nat) (cur : Int) (idx : Nat),
      (sprintLoop e len pid fuel cur idx).map Sprint.name =
        (List.range (sprintLoop e len pid fuel cur idx).length).map
          (fun k => "Sprint " ++ toString (idx + k)) := by
  intro fuel
  induction fuel with
  | zero => intro cur idx; rfl
  | succ n ih =>
    intro cur idx
    rw [sprintLoop]
    by_cases hc : cur ≤ e
    · rw [if_pos hc]
      rw [List.map_cons, List.length_cons, List.range_succ_eq_map, List.map_cons,
        List.map_map]
      rw [ih _ (idx + 1)]
      refine congrArg₂ List.cons ?_ ?_
      · show "Sprint " ++ toString idx = "Sprint " ++ toString (idx + 0)
        rw [Nat.add_zero]
      · apply List.map_congr_left
        intro a _
        show "Sprint " ++ toString (idx + 1 + a) = "Sprint " ++ toString (idx + Nat.succ a)
        have h3 : idx + 1 + a = idx + Nat.succ a := by omega
        rw [h3]
    · rw [if_neg hc]; rfl

/-- C3: for a project with both dates present, `start_date ≤ end_date` and
sprint length at least one, `build_sprints` returns a non-empty sequence,
strictly ordered by start date, contiguous (each sprint starts one day
after the previous ends), non-overlapping, starting at `start_date` and
ending exactly at `end_date`; every sprint spans at most
`sprint_length_days` days, every non-last sprint exactly that many, and the
i-th sprint (1-based) is named `Sprint i`. -/
theorem c3_build_sprints_covering (project : Project) (sd ed len : Int)
    (hs : project.start_date = some sd) (he : project.end_date = some ed)
    (hl : project.sprint_length_days = some len)
    (hrange : sd ≤ ed) (hlen : 1 ≤ len) :
    build_sprints project ≠ [] ∧
    (∀ s, (build_sprints project).head? = some s → s.start_date = sd) ∧
    (build_sprints project).getLast?.map Sprint.end_date = some ed ∧
    List.Pairwise (fun a b => a.start_date < b.start_date) (build_sprints project) ∧
    List.Chain' (fun a b => b.start_date = a.end_date + 1) (build_sprints project) ∧
    List.Pairwise (fun a b => a.end_date < b.start_date) (build_sprints project) ∧
    (∀ s ∈ build_sprints project,
      s.start_date ≤ s.end_date ∧ s.end_date + 1 - s.start_date ≤ len) ∧
    List.Chain' (fun a _ => a.end_date + 1 - a.start_date = len)
      (build_sprints project) ∧
    (build_sprints project).map Sprint.name =
      (List.range (build_sprints project).length).map
        (fun i => "Sprint " ++ toString (i + 1)) := by
  have h0 : (len == 0) = false := by simp; omega
  have h1 : ¬(len < 1) := by omega
  have hbs : build_sprints project =
      sprintLoop ed len project.id ((ed - sd).toNat + 1) sd 1 := by
    simp only [build_sprints, hs, he, hl, h0, Bool.false_eq_true, if_false, h1]
  rw [hbs]
  refine ⟨sprintLoop_ne_nil hrange (by omega), ?_, ?_, ?_, ?_, ?_, ?_, ?_, ?_⟩
  · intro s h; exact (sprintLoop_head? h).1
  · exact sprintLoop_getLast hlen _ sd 1 hrange (by omega)
  · exact sprintLoop_pairwise_ordered hlen _ sd 1
  · exact sprintLoop_chain_contiguous _ sd 1
  · exact sprintLoop_pairwise_disjoint hlen _ sd 1
  · intro s h
    have hb := sprintLoop_mem_bounds hlen _ sd 1 s h
    exact ⟨hb.1, hb.2.2⟩
  · exact sprintLoop_chain_full _ sd 1
  · rw [sprintLoop_map_name _ sd 1]
    apply List.map_congr_left
    intro a _
    congr 1
    congr 1
    omega

/-- C3 witness: the sample project (ordinals 1..10, length 7), whose
sprints are `Sprint 1 = [1,7]` and `Sprint 2 = [8,10]`. -/
theorem c3_build_sprints_covering_witness :
    sampleProject.start_date = some 1 ∧ sampleProject.end_date = some 10 ∧
    sampleProject.sprint_length_days = some 7 ∧ (1 : Int) ≤ 10 ∧ (1 : Int) ≤ 7 ∧
    (build_sprints sampleProject ≠ [] ∧
     (∀ s, (build_sprints sampleProject).head? = some s → s.start_date = 1) ∧
     (build_sprints sampleProject).getLast?.map Sprint.end_date = some 10 ∧
     List.Pairwise (fun a b => a.start_date < b.start_date)
       (build_sprints sampleProject) ∧
     List.Chain' (fun a b => b.start_date = a.end_date + 1)
       (build_sprints sampleProject) ∧
     List.Pairwise (fun a b => a.end_date < b.start_date)
       (build_sprints sampleProject) ∧
     (∀ s ∈ build_sprints sampleProject,
       s.start_date ≤ s.end_date ∧ s.end_date + 1 - s.start_date ≤ 7) ∧
     List.Chain' (fun a _ => a.end_date + 1 - a.start_date = 7)
       (build_sprints sampleProject) ∧
     (build_sprints sampleProject).map Sprint.name =
       (List.range (build_sprints sampleProject).length).map
         (fun i => "Sprint " ++ toString (i + 1))) :=
  ⟨rfl, rfl, rfl, by decide, by decide,
    c3_build_sprints_covering sampleProject 1 10 7 rfl rfl rfl
      (by decide) (by decide)⟩

/-- Every sprint `build_sprints` emits carries the project's id. -/
theorem build_sprints_project_id (project : Project) :
    ∀ s ∈ build_sprints project, s.project_id = project.id := by
  intro s hs
  cases hsd : project.start_date with
  | none => simp [build_sprints, hsd] at hs
  | some sd =>
    cases hed : project.end_date with
    | none => simp [build_sprints, hsd, hed] at hs
    | some ed =>
      cases hsl : project.sprint_length_days with
      | none => simp [build_sprints, hsd, hed, hsl] at hs
      | some len =>
        simp only [build_sprints, hsd, hed, hsl] at hs
        by_cases h0 : len = 0
        · simp [h0] at hs
        · have h0b : (len == 0) = false := by simp [h0]
          simp only [h0b, Bool.false_eq_true, if_false] at hs
          by_cases h1 : len < 1
          · rw [if_pos h1] at hs; simp at hs
          · rw [if_neg h1] at hs
            exact sprintLoop_mem_project_id _ _ _ s hs

/-- C5: invoked by the owner on a project whose start date, end date and
sprint length are all set, sprint regeneration either fully applies — the
stored sprints of the project are exactly the freshly generated ones,
sprints of other projects are untouched, every task of the project has its
sprint reference cleared, no task row changes in any other column, and
tasks of other projects are entirely untouched — or it leaves the stored
sprints and tasks exactly as they were. -/
theorem c5_generate_sprints_atomic (st : DBState) (project : Project) (user : Nat)
    (howner : project.user_id = user)
    (hs : ∃ a, project.start_date = some a)
    (he : ∃ b, project.end_date = some b)
    (hl : ∃ c, project.sprint_length_days = some c) :
    ((generate_sprints st project user).sprints.filter
        (fun s => s.project_id == project.id) = build_sprints project ∧
     (generate_sprints st project user).sprints.filter
        (fun s => s.project_id != project.id) =
          st.sprints.filter (fun s => s.project_id != project.id) ∧
     (∀ t ∈ (generate_sprints st project user).tasks,
        t.project.id = project.id → t.sprint_id = none) ∧
     (generate_sprints st project user).tasks.map
        (fun t => { t with sprint_id := none }) =
          st.tasks.map (fun t => { t with sprint_id := none }) ∧
     (generate_sprints st project user).tasks.filter
        (fun t => t.project.id != project.id) =
          st.tasks.filter (fun t => t.project.id != project.id)) ∨
    generate_sprints st project user = st := by
  obtain ⟨sd, hsd⟩ := hs
  obtain ⟨ed, hed⟩ := he
  obtain ⟨len, hsl⟩ := hl
  have hgate : (!(project.user_id == user)) = false := by simp [howner]
  by_cases h0 : len = 0
  · right
    simp [generate_sprints, hgate, hsd, hed, hsl, h0]
  · left
    have h0b : (len == 0) = false := by simp [h0]
    have hgen : generate_sprints st project user =
        { sprints := (st.sprints.filter fun s => s.project_id != project.id) ++
            build_sprints project,
          tasks := st.tasks.map fun t =>
            if t.project.id == project.id then { t with sprint_id := none } else t } := by
      simp only [generate_sprints, hgate, Bool.false_eq_true, if_false,
        hsd, hed, hsl, h0b]
    rw [hgen]
    refine ⟨?_, ?_, ?_, ?_, ?_⟩
    · rw [List.filter_append]
      have hfst : (st.sprints.filter fun s => s.project_id != project.id).filter
          (fun s => s.project_id == project.id) = [] := by
        apply List.filter_eq_nil_iff.mpr
        intro a ha
        have h2 := (List.mem_filter.mp ha).2
        simp only [bne_iff_ne, ne_eq] at h2
        simp [h2]
      have hsnd : (build_sprints project).filter
          (fun s => s.project_id == project.id) = build_sprints project := by
        apply List.filter_eq_self.mpr
        intro a ha
        simp [build_sprints_project_id project a ha]
      rw [hfst, hsnd, List.nil_append]
    · rw [List.filter_append]
      have h1 : (build_sprints project).filter
          (fun s => s.project_id != project.id) = [] := by
        apply List.filter_eq_nil_iff.mpr
        intro a ha
        simp [build_sprints_project_id project a ha]
      have h2 : (st.sprints.filter fun s => s.project_id != project.id).filter
          (fun s => s.project_id != project.id) =
            st.sprints.filter fun s => s.project_id != project.id := by
        apply List.filter_eq_self.mpr
        intro a ha
        exact (List.mem_filter.mp ha).2
      rw [h1, h2, List.append_nil]
    · intro t ht hpid
      rcases List.mem_map.mp ht with ⟨t0, ht0, rfl⟩
      by_cases h : t0.project.id = project.id
      · simp [h]
      · have hb : (t0.project.id == project.id) = false := by simp [h]
        simp only [hb, Bool.false_eq_true, if_false] at hpid ⊢
        exact absurd hpid h
    · rw [List.map_map]
      apply List.map_congr_left
      intro t _
      show (fun t => { t with sprint_id := none })
          (if t.project.id == project.id then { t with sprint_id := none } else t) =
        { t with sprint_id := none }
      by_cases h : t.project.id = project.id
      · simp [h]
      · have hb : (t.project.id == project.id) = false := by simp [h]
        simp [hb]
    · rw [List.filter_map]
      have hpf : ((fun t => t.project.id != project.id) ∘ (fun (t : Task) =>
          if t.project.id == project.id then { t with sprint_id := none } else t)) =
          fun (t : Task) => t.project.id != project.id := by
        funext t
        by_cases h : t.project.id = project.id
        · simp [h]
        · simp [h]
      rw [hpf]
      have hmapid : List.map (fun t =>
          if t.project.id == project.id then { t with sprint_id := none } else t)
          (st.tasks.filter fun t => t.project.id != project.id) =
          List.map id (st.tasks.filter fun t => t.project.id != project.id) := by
        apply List.map_congr_left
        intro t ht
        have h2 := (List.mem_filter.mp ht).2
        simp only [bne_iff_ne, ne_eq] at h2
        simp [h2]
      rw [hmapid, List.map_id]

/-- C5 witness: the owner regenerates the sample project's sprints over a
state holding a stale sprint of the project, a sprint of another project
and a task still attached to the stale sprint. -/
theorem c5_generate_sprints_atomic_witness :
    sampleProject.user_id = 1 ∧
    (∃ a, sampleProject.start_date = some a) ∧
    (∃ b, sampleProject.end_date = some b) ∧
    (∃ c, sampleProject.sprint_length_days = some c) ∧
    (((generate_sprints sampleState sampleProject 1).sprints.filter
        (fun s => s.project_id == sampleProject.id) = build_sprints sampleProject ∧
      (generate_sprints sampleState sampleProject 1).sprints.filter
        (fun s => s.project_id != sampleProject.id) =
          sampleState.sprints.filter (fun s => s.project_id != sampleProject.id) ∧
      (∀ t ∈ (generate_sprints sampleState sampleProject 1).tasks,
        t.project.id = sampleProject.id → t.sprint_id = none) ∧
      (generate_sprints sampleState sampleProject 1).tasks.map
        (fun t => { t with sprint_id := none }) =
          sampleState.tasks.map (fun t => { t with sprint_id := none }) ∧
      (generate_sprints sampleState sampleProject 1).tasks.filter
        (fun t => t.project.id != sampleProject.id) =
          sampleState.tasks.filter (fun t => t.project.id != sampleProject.id)) ∨
      generate_sprints sampleState sampleProject 1 = sampleState) :=
  ⟨rfl, ⟨1, rfl⟩, ⟨10, rfl⟩, ⟨7, rfl⟩,
    c5_generate_sprints_atomic sampleState sampleProject 1 rfl
      ⟨1, rfl⟩ ⟨10, rfl⟩ ⟨7, rfl⟩⟩

/-- `rangeDays lo hi` holds `d` exactly once when `lo ≤ d ≤ hi`, never
otherwise. -/
theorem rangeDays_count (lo hi d : Int) :
    (rangeDays lo hi).count d = if lo ≤ d ∧ d ≤ hi then 1 else 0 := by
  have hmem : d ∈ rangeDays lo hi ↔ lo ≤ d ∧ d ≤ hi := by
    unfold rangeDays
    constructor
    · intro h
      rcases List.mem_map.mp h with ⟨i, hi2, rfl⟩
      have := List.mem_range.mp hi2
      omega
    · intro hb
      apply List.mem_map.mpr
      refine ⟨(d - lo).toNat, ?_, by omega⟩
      apply List.mem_range.mpr
      omega
  have hnd : (rangeDays lo hi).Nodup := by
    unfold rangeDays
    apply List.Nodup.map
    · intro a b hab
      have hab2 : lo + (a : Int) = lo + (b : Int) := hab
      omega
    · exact List.nodup_range _
  by_cases h : lo ≤ d ∧ d ≤ hi
  · rw [if_pos h]
    exact List.count_eq_one_of_mem hnd (hmem.mpr h)
  · rw [if_neg h]
    apply List.count_eq_zero_of_not_mem
    intro hc
    exact h (hmem.mp hc)

/-- The clipped event range files exactly one entry under each day of the
clipped interval and none elsewhere. -/
theorem add_event_range_day_count (month_start month_end s e : Int)
    (label event_type : String) (d : Int) :
    ((add_event_range month_start month_end (some s) (some e)
        label event_type).filter (fun ev => ev.day == d)).length =
      if max s month_start ≤ d ∧ d ≤ min e month_end then 1 else 0 := by
  unfold add_event_range
  rw [← List.countP_eq_length_filter, List.countP_map]
  have hcomp : ((fun ev => ev.day == d) ∘ (fun x =>
      ({ day := x, label := label, event_type := event_type } : CalEvent))) =
      fun x => x == d := rfl
  rw [hcomp]
  exact rangeDays_count (max s month_start) (min e month_end) d

/-- C8: the calendar aggregation clips a range to the month bounds and adds
exactly one event entry per day of the non-empty clipped range; in
particular the task running 2025-03-30 .. 2025-04-02 viewed for April 2025
produces events exactly on 2025-04-01 and 2025-04-02. -/
theorem c8_calendar_clipping :
    (∀ (month_start month_end s e d : Int) (label event_type : String),
      ((add_event_range month_start month_end (some s) (some e)
          label event_type).filter (fun ev => ev.day == d)).length =
        if max s month_start ≤ d ∧ d ≤ min e month_end then 1 else 0) ∧
    (project_calendar_events [] [aprilTask] 2025 4).map CalEvent.day =
      [daysFromCivil 2025 4 1, daysFromCivil 2025 4 2] := by
  constructor
  · intro month_start month_end s e d label event_type
    exact add_event_range_day_count month_start month_end s e label event_type d
  · rfl

end CyberPM
